import Mathlib

/-!
Shallow embedding of `src/scraper.py` (Archivportal-D scraper) and proofs
about its behaviour.

Modelling conventions:
* Pure Python functions become Lean functions; the mutable `ArchivportalScraper`
  state (`results`, `seen_hashes`, `errors`, `duplicates`, `parse_failures`)
  becomes explicit state passing over `ScraperState`.
* The HTTP client and the HTML/XML parsing libraries (`aiohttp`,
  `BeautifulSoup`, `xml.etree`) are external collaborators: the environment
  delivers each response already parsed into the structured shape the code
  reads off it (anchors with `href`/text, subtitle text, XML dataProvider
  strings). A failed fetch is `none`.
* The domain-heuristic extractors (`extract_date`, `extract_institution`,
  `extract_location_ner` — spaCy NER) are collaborator functions per the
  architecture; they are parameters of the environment, so every theorem
  holds for all of them.
* `hashlib.md5` is a parameter `md5 : String → String`; the code only uses it
  as a deterministic fingerprint function.
* Python `str.lower`/`str.strip` are modelled by `String.toLower`/`String.trim`
  (ASCII-faithful; the Unicode case table differs but no theorem depends on it).
* `asyncio.gather` batches are modelled by sequential processing in list
  order; no claim below depends on intra-batch completion order.
-/

namespace Scraper

/-! ## String utilities -/

/-- Substring containment on character lists (Python's `in` operator and
`re.search` of a literal pattern). -/
def containsSubList (needle : List Char) : List Char → Bool
  | [] => needle.isEmpty
  | c :: rest => needle.isPrefixOf (c :: rest) || containsSubList needle rest

/-- Python `needle in hay` for strings. -/
def containsSub (hay needle : String) : Bool :=
  containsSubList needle.data hay.data

/-- Split a character list into its maximal whitespace-free words
(`acc` holds the reversed current word). -/
def wordsAux : List Char → List Char → List (List Char)
  | [], acc => if acc.isEmpty then [] else [acc.reverse]
  | c :: rest, acc =>
    if c.isWhitespace then
      if acc.isEmpty then wordsAux rest [] else acc.reverse :: wordsAux rest []
    else wordsAux rest (c :: acc)

/-- Join words with single spaces. -/
def joinWords : List (List Char) → List Char
  | [] => []
  | [w] => w
  | w :: ws => w ++ ' ' :: joinWords ws

/-- Whitespace normalisation: collapse runs of whitespace to single spaces and
trim the ends.  Models `re.sub(r'\s+', ' ', t).strip()` and the emptiness
behaviour of `get_text(strip=True)`. -/
def normSpace (s : String) : String :=
  String.mk (joinWords (wordsAux s.data []))

/-! ## The record type (`Initiative`) and its canonical key -/

structure Initiative where
  titre : String
  periode : String
  lieu : String
  url : String
  institution : String
deriving DecidableEq

/-- Character class `[A-Z0-9]` of the item-id pattern. -/
def isIdChar (c : Char) : Bool :=
  ('A' ≤ c && c ≤ 'Z') || ('0' ≤ c && c ≤ '9')

/-- Longest run of `[A-Z0-9]` characters (the greedy `+`). -/
def takeIdRun : List Char → List Char
  | [] => []
  | c :: rest => if isIdChar c then c :: takeIdRun rest else []

/-- Try to match `/item/([A-Z0-9]+)` at the head of the list; return the
captured group on success. -/
def itemIdHere : List Char → Option (List Char)
  | '/' :: 'i' :: 't' :: 'e' :: 'm' :: '/' :: c :: rest =>
    if isIdChar c then some (c :: takeIdRun rest) else none
  | _ => none

/-- Model of the Python regex search for the item-id pattern: leftmost match,
returning the captured group. -/
def findItemId : List Char → Option (List Char)
  | [] => none
  | c :: rest =>
    match itemIdHere (c :: rest) with
    | some g => some g
    | none => findItemId rest

/-- The URL contains an occurrence of `/item/` followed by at least one
`[A-Z0-9]` character (i.e. the item-id pattern matches somewhere). -/
def hasItemSeg (url : String) : Prop :=
  ∃ a c b, url.data = a ++ ("/item/".data ++ c :: b) ∧ isIdChar c = true

/-- The normalised content triple of the fallback fingerprint:
`f"{titre.lower().strip()}|{periode}|{lieu.lower().strip()}"`. -/
def normTriple (i : Initiative) : String :=
  i.titre.toLower.trim ++ "|" ++ i.periode ++ "|" ++ i.lieu.toLower.trim

/-- Model of `Initiative.hash_key`: prefer the id parsed from the URL, otherwise the
md5 fingerprint of the normalised triple. -/
def hash_key (md5 : String → String) (i : Initiative) : String :=
  match findItemId i.url.data with
  | some g => String.mk g
  | none => md5 (normTriple i)

/-! ## Deduplicator state and `add_result` -/

/-- One entry of `self.duplicates`: the rejected record's title and url. -/
structure DupEntry where
  titre : String
  url : String
deriving DecidableEq

/-- One entry of `self.parse_failures`. -/
structure ParseFailEntry where
  url : String
  page_source : String
  raison : String
deriving DecidableEq

/-- The mutable accumulation state of `ArchivportalScraper` relevant to
admission and parsing.  `seen_hashes` is a Python `set`; a `List` with
membership is an equivalent model. -/
structure ScraperState where
  results : List Initiative
  seen_hashes : List String
  duplicates : List DupEntry
  parse_failures : List ParseFailEntry
deriving DecidableEq

def emptyState : ScraperState := ⟨[], [], [], []⟩

/-- Model of `ArchivportalScraper.add_result`: admit a record against the seen-set.
Returns the updated state and the accept/duplicate decision. -/
def add_result (md5 : String → String) (s : ScraperState) (i : Initiative) :
    ScraperState × Bool :=
  let key := hash_key md5 i
  if key ∈ s.seen_hashes then
    ({ s with duplicates := s.duplicates ++ [⟨i.titre, i.url⟩] }, false)
  else
    ({ s with seen_hashes := key :: s.seen_hashes,
              results := s.results ++ [i] }, true)

/-- Process a whole sequence of candidate records through `add_result`. -/
def add_all (md5 : String → String) (s : ScraperState) :
    List Initiative → ScraperState
  | [] => s
  | i :: rest => add_all md5 (add_result md5 s i).1 rest

/-- The accept/duplicate decisions produced along a sequence of admissions. -/
def admitFlags (md5 : String → String) (s : ScraperState) :
    List Initiative → List Bool
  | [] => []
  | i :: rest => (add_result md5 s i).2 :: admitFlags md5 (add_result md5 s i).1 rest

/-- The subsequence of a candidate sequence that `add_result` accepts. -/
def acceptedOf (md5 : String → String) (s : ScraperState) :
    List Initiative → List Initiative
  | [] => []
  | i :: rest =>
    if (add_result md5 s i).2 then i :: acceptedOf md5 (add_result md5 s i).1 rest
    else acceptedOf md5 (add_result md5 s i).1 rest

/-- The duplicate diagnostics generated along a candidate sequence. -/
def rejectedOf (md5 : String → String) (s : ScraperState) :
    List Initiative → List DupEntry
  | [] => []
  | i :: rest =>
    if (add_result md5 s i).2 then rejectedOf md5 (add_result md5 s i).1 rest
    else ⟨i.titre, i.url⟩ :: rejectedOf md5 (add_result md5 s i).1 rest

/-! ## RateLimitedFetcher (`ArchivportalScraper.fetch`) -/

/-- What one attempt of the retry loop observes: an HTTP response (status
code and body), a timeout, or another transport exception. -/
inductive AttemptOutcome where
  | resp (status : Nat) (body : String)
  | timeout
  | exn (msg : String)
deriving DecidableEq

/-- One entry of `self.errors`: either a url with a status code, or a url
with an error message. -/
inductive ErrorEntry where
  | status (url : String) (code : Nat)
  | err (url : String) (msg : String)
deriving DecidableEq

/-- Observable outcome of one `fetch` call: the returned body (`none` is
failure), the error diagnostics appended during the call, the sleeps
performed (`2 ^ attempt` after a 429, `1` after a timeout), and the number
of loop iterations executed. -/
structure FetchResult where
  body : Option String
  newErrors : List ErrorEntry
  sleeps : List Nat
  attemptsUsed : Nat
deriving DecidableEq

/-- The retry loop of `fetch` (`for attempt in range(retries)`), with
`fuel` remaining iterations; `fetch` enters with `attempt = 0` and
`fuel = retries`.  Branch by branch this mirrors the Python body:
200 returns the body, 429 sleeps `2 ^ attempt` and retries, any other
status appends a status diagnostic and returns `None`, a timeout sleeps 1
and retries, any other exception retries and appends an error diagnostic
only on the last attempt; falling out of the loop returns `None` with no
diagnostic. -/
def fetchGo (url : String) (env : Nat → AttemptOutcome) (retries : Nat) :
    Nat → Nat → FetchResult
  | _, 0 => ⟨none, [], [], 0⟩
  | attempt, fuel + 1 =>
    match env attempt with
    | .resp code body =>
      if code = 200 then ⟨some body, [], [], 1⟩
      else if code = 429 then
        let r := fetchGo url env retries (attempt + 1) fuel
        ⟨r.body, r.newErrors, 2 ^ attempt :: r.sleeps, r.attemptsUsed + 1⟩
      else ⟨none, [ErrorEntry.status url code], [], 1⟩
    | .timeout =>
      let r := fetchGo url env retries (attempt + 1) fuel
      ⟨r.body, r.newErrors, 1 :: r.sleeps, r.attemptsUsed + 1⟩
    | .exn msg =>
      let r := fetchGo url env retries (attempt + 1) fuel
      ⟨r.body,
        (if attempt = retries - 1 then [ErrorEntry.err url msg] else []) ++ r.newErrors,
        r.sleeps, r.attemptsUsed + 1⟩

/-- Model of `ArchivportalScraper.fetch url retries` (the code's default budget is
`retries = 3`), driven by the per-attempt environment `env`. -/
def fetch (url : String) (env : Nat → AttemptOutcome) (retries : Nat) : FetchResult :=
  fetchGo url env retries 0 retries

/-! ## Pagination planning -/

def ROWS_PER_PAGE : Nat := 100

def BASE_URL : String := "https://www.archivportal-d.de"

def SEARCH_URL : String := BASE_URL ++ "/objekte"

def QUERY : String := "Bürgerinitiativen"

/-- Value of `urllib.parse.quote QUERY`: UTF-8 percent-encoding of the query string,
precomputed (the encoder is Python stdlib, external to the program). -/
def quotedQuery : String := "B%C3%BCrgerinitiativen"

/-- One search URL with explicit offset and rows parameters — the page
descriptor `scrape_all` builds per page. -/
def pageUrl (offset rows : Nat) : String :=
  SEARCH_URL ++ "?lang=en&query=" ++ quotedQuery ++ "&offset=" ++ toString offset
    ++ "&rows=" ++ toString rows

/-- Page count `pages = (total + ROWS_PER_PAGE - 1) // ROWS_PER_PAGE`. -/
def pagesFor (total : Nat) : Nat := (total + ROWS_PER_PAGE - 1) / ROWS_PER_PAGE

/-- The list-page URLs built in `scrape_all`
(`offset = i * ROWS_PER_PAGE`, `rows = ROWS_PER_PAGE`). -/
def scrapeUrls (total : Nat) : List String :=
  (List.range (pagesFor total)).map
    (fun i => pageUrl (i * ROWS_PER_PAGE) ROWS_PER_PAGE)

/-! ## Parsed-document model and record extraction -/

/-- An HTML anchor: its `href` attribute (empty when absent) and its
visible text. -/
structure Anchor where
  href : String
  text : String
deriving DecidableEq

/-- The list-item container around an item link
(`link.find_parent(['li', 'div', 'article', 'tr'])`): its anchors in
document order and the text of its `div.subtitle` child when present. -/
structure Fragment where
  anchors : List Anchor
  subtitle : Option String
deriving DecidableEq

/-- A parsed XML response of the OAI metadata endpoint: either malformed
(`ET.ParseError`) or the list of `edm:dataProvider` text entries. -/
inductive OaiDoc where
  | malformed
  | record (dataProviders : List String)

/-- The environment of a crawl: the collaborator functions (md5 and the
date/institution/place extractors of §6 of the design) and the network,
delivering parsed documents per URL (`none` = fetch failure or empty
body). `listPage` maps a search URL to the fragments of the result page,
`detail` maps a detail-page URL to that page's anchors, and `oai` is keyed
by the item id the code embeds in the OAI request URL. -/
structure CrawlEnv where
  md5 : String → String
  inferDate : String → String
  inferInstitution : String → String
  ner : String → String → String → String
  totalText : Option String
  listPage : String → Option (List Fragment)
  detail : String → Option (List Anchor)
  oai : String → Option OaiDoc

/-- Whether a string begins with `/`. -/
def startsWithSlash (s : String) : Bool :=
  match s.data with
  | '/' :: _ => true
  | _ => false

/-- Simplified `urllib.parse.urljoin`, covering the shapes that occur here
(absolute hrefs, root-relative hrefs against the bare origin `BASE_URL`). -/
def urljoin (base href : String) : String :=
  if href = "" then base
  else if containsSub href "://" then href
  else if startsWithSlash href then base ++ href
  else base ++ "/" ++ href

/-- Model of `ArchivportalScraper.parse_list_item`: find the first `/item/` link
of the fragment, build the record from its whitespace-normalised text and
its href, plus the subtitle metadata put through the collaborator
extractors. Returns `none` when the fragment has no such link. -/
def parse_list_item (env : CrawlEnv) (frag : Fragment) (base : String) :
    Option Initiative :=
  match frag.anchors.find? (fun a => containsSub a.href "/item/") with
  | none => none
  | some link =>
    let titre := normSpace link.text
    let url := urljoin base link.href
    let meta := (frag.subtitle.map normSpace).getD ""
    let periode := env.inferDate meta
    let institution := env.inferInstitution meta
    let lieu := env.ner meta institution titre
    some ⟨titre, periode, lieu, url, institution⟩

/-- The per-anchor loop of `parse_list_page` over one fragment's anchors:
`/item/` links with empty text are skipped silently; otherwise the parent
fragment goes through `parse_list_item`, and an extraction miss appends
one parse-failure entry tagged with the page URL. -/
def processAnchors (env : CrawlEnv) (frag : Fragment) (page_url : String) :
    List Anchor → List Initiative × List ParseFailEntry
  | [] => ([], [])
  | a :: rest =>
    let r := processAnchors env frag page_url rest
    if containsSub a.href "/item/" then
      if normSpace a.text = "" then r
      else
        match parse_list_item env frag BASE_URL with
        | some ini => (ini :: r.1, r.2)
        | none => (r.1, ⟨urljoin BASE_URL a.href, page_url, "parsing_failed"⟩ :: r.2)
    else r

/-- Model of `ArchivportalScraper.parse_list_page`: iterate over all `/item/`
anchors of the page in document order (fragment by fragment), collecting
extracted records and parse failures. -/
def parse_list_page (env : CrawlEnv) (page : List Fragment) (page_url : String) :
    List Initiative × List ParseFailEntry :=
  match page with
  | [] => ([], [])
  | frag :: rest =>
    let hd := processAnchors env frag page_url frag.anchors
    let tl := parse_list_page env rest page_url
    (hd.1 ++ tl.1, hd.2 ++ tl.2)

/-! ## Enrichment pipeline -/

/-- Scan of the OAI response's `dataProvider` entries: first non-empty name
whose place-inference is not the unspecified marker. -/
def scanProviders (env : CrawlEnv) : List String → Option String
  | [] => none
  | n :: rest =>
    let name := normSpace n
    if name = "" then scanProviders env rest
    else
      let lieu := env.ner name name ""
      if lieu ≠ "Non spécifié" then some lieu else scanProviders env rest

/-- Model of `ArchivportalScraper.fetch_oai_location`. -/
def fetch_oai_location (env : CrawlEnv) (item_id : String) : Option String :=
  match env.oai item_id with
  | none => none
  | some OaiDoc.malformed => none
  | some (OaiDoc.record dps) => scanProviders env dps

/-- Stage-1 scan of `fetch_detail_location`: anchors whose href contains
`/organization/`; first non-empty text whose place-inference is not the
unspecified marker. -/
def scanOrg (env : CrawlEnv) : List Anchor → Option String
  | [] => none
  | a :: rest =>
    if containsSub a.href "/organization/" then
      let text := normSpace a.text
      if text = "" then scanOrg env rest
      else
        let lieu := env.ner text text ""
        if lieu ≠ "Non spécifié" then some lieu else scanOrg env rest
    else scanOrg env rest

/-- Model of `ArchivportalScraper.fetch_detail_location`: stage 1 scans the detail
page's organization links; stage 2 (the OAI lookup keyed by the item id
parsed from the URL) runs only when stage 1 found nothing.  The `Bool`
records whether the secondary (OAI) endpoint was fetched. -/
def fetch_detail_location (env : CrawlEnv) (url : String) : Option String × Bool :=
  match env.detail url with
  | none => (none, false)
  | some anchors =>
    match scanOrg env anchors with
    | some lieu => (some lieu, false)
    | none =>
      match findItemId url.data with
      | some g => (fetch_oai_location env (String.mk g), true)
      | none => (none, false)

/-- Per-record step of `enrich_missing_locations`: `if lieu:` — only a
non-`None`, non-empty result is written into the record's place field. -/
def enrichOne (env : CrawlEnv) (r : Initiative) : Initiative :=
  match (fetch_detail_location env r.url).1 with
  | some l => if l ≠ "" then { r with lieu := l } else r
  | none => r

/-- Whether the fallback found a truthy place for a record (the `found`
counter's condition). -/
def detailFound (env : CrawlEnv) (r : Initiative) : Bool :=
  match (fetch_detail_location env r.url).1 with
  | some l => l != ""
  | none => false

/-- Model of `ArchivportalScraper.enrich_missing_locations`: records whose place is
the unspecified marker get the fallback lookup, mutated in place; returns
the record list after enrichment and the `found` counter. -/
def enrich_missing_locations (env : CrawlEnv) (results : List Initiative) :
    List Initiative × Nat :=
  ((results.map fun r => if r.lieu = "Non spécifié" then enrichOne env r else r),
   ((results.filter fun r => r.lieu = "Non spécifié").filter (detailFound env)).length)

/-! ## Planning and the crawl orchestrator -/

/-- Result of running a piece of Python code: a value, or an uncaught
exception. -/
inductive PyResult (α : Type) where
  | ok (val : α)
  | raise
deriving DecidableEq

/-- Character class `[\d,]` of the total-count pattern. -/
def isDigitComma (c : Char) : Bool := c.isDigit || c = ','

/-- Try to match `of\s+([\d,]+)` at the head of the list: the literal
`of`, at least one whitespace, then the captured maximal run of
digits/commas. -/
def totalMatchAt : List Char → Option (List Char)
  | 'o' :: 'f' :: rest =>
    let ws := rest.takeWhile Char.isWhitespace
    if ws.isEmpty then none
    else
      let g := (rest.drop ws.length).takeWhile isDigitComma
      if g.isEmpty then none else some g
  | _ => none

/-- Leftmost match of the total-count pattern over the text, captured group. -/
def findTotal : List Char → Option (List Char)
  | [] => none
  | c :: rest =>
    match totalMatchAt (c :: rest) with
    | some g => some g
    | none => findTotal rest

/-- Python `int` on a digit string. -/
def digitsToNat (l : List Char) : Nat :=
  l.foldl (fun acc c => acc * 10 + (c.toNat - 48)) 0

/-- Model of `ArchivportalScraper.get_total_results`: 0 on fetch failure or when the
pattern does not match; otherwise `int(match.group(1).replace(',', ''))` —
which raises an uncaught `ValueError` when the matched group holds no
digit (commas only). -/
def get_total_results (env : CrawlEnv) : PyResult Nat :=
  match env.totalText with
  | none => PyResult.ok 0
  | some t =>
    match findTotal t.data with
    | none => PyResult.ok 0
    | some g =>
      let ds := g.filter (fun c => c ≠ ',')
      if ds.isEmpty then PyResult.raise else PyResult.ok (digitsToNat ds)

/-- One list-page URL inside `scrape_all`: fetch; a failed page contributes
nothing; a fetched page is parsed (appending its parse failures) and every
extracted record is admitted through `add_result`. -/
def processListPage (env : CrawlEnv) (s : ScraperState) (url : String) :
    ScraperState :=
  match env.listPage url with
  | none => s
  | some page =>
    let pr := parse_list_page env page url
    add_all env.md5 { s with parse_failures := s.parse_failures ++ pr.2 } pr.1

/-- Observable outcome of `scrape_all`: the accumulated state, the list
pages fetched, whether the enrichment phase ran, and its `found` count. -/
structure CrawlOutcome where
  state : ScraperState
  listUrlsFetched : List String
  enrichRan : Bool
  found : Nat
deriving DecidableEq

/-- Model of `ArchivportalScraper.scrape_all`: get the total count (early return
with an empty result when it is 0), process every planned list page (the
batched `asyncio.gather` is modelled in list order), then run the
enrichment pass over the accumulated results. -/
def scrape_all (env : CrawlEnv) : PyResult CrawlOutcome :=
  match get_total_results env with
  | PyResult.raise => PyResult.raise
  | PyResult.ok total =>
    if total = 0 then PyResult.ok ⟨emptyState, [], false, 0⟩
    else
      let urls := scrapeUrls total
      let s := urls.foldl (processListPage env) emptyState
      let er := enrich_missing_locations env s.results
      PyResult.ok ⟨{ s with results := er.1 }, urls, true, er.2⟩

/-! ## Concrete fixtures used by witnesses and counterexamples -/

/-- A record sharing the dedup key with a later one. -/
def recA : Initiative := ⟨"Titel", "1970", "Berlin", "/item/AB12", ""⟩

/-- Same item id as `recA` but with drifted fields. -/
def recB : Initiative :=
  ⟨"Other title", "1980", "Bonn", "https://www.archivportal-d.de/item/AB12", "X"⟩

/-- A record whose URL has no parseable item id. -/
def recC : Initiative := ⟨"Titel", "1970", "Berlin", "https://example.org/other", ""⟩

/-- A record still carrying the unspecified place marker. -/
def recD : Initiative := ⟨"T", "1970", "Non spécifié", "https://example.org/x", ""⟩

/-- A baseline environment: identity md5, constant extractors, and a
network on which every fetch fails. -/
def cenv : CrawlEnv :=
  ⟨fun s => s, fun _ => "Non spécifiée", fun _ => "", fun _ _ _ => "Non spécifié",
   none, fun _ => none, fun _ => none, fun _ => none⟩

/-- A fragment with no `/item/` link at all. -/
def fragNoLink : Fragment := ⟨[], none⟩

/-- A fragment whose first `/item/` link has empty text while a later one
has a title. -/
def fragEmptyTitle : Fragment :=
  ⟨[⟨"/item/AAA", ""⟩, ⟨"/item/BBB", "Titre"⟩], none⟩

/-- A fragment with a single, well-titled item link. -/
def fragGood : Fragment := ⟨[⟨"/item/CCC", "Ein Titel"⟩], none⟩

/-- Environment whose detail pages carry one organization link and whose
place-inference returns its argument. -/
def cenvOrg : CrawlEnv :=
  { cenv with
      detail := fun _ => some [⟨"/organization/x", "Berlin"⟩],
      ner := fun t _ _ => t }

/-- Environment whose total-count page reports one result. -/
def cenvTotal1 : CrawlEnv := { cenv with totalText := some "1 of 1 objects" }

/-! ## Lemmas about admission -/

lemma add_result_snd (md5 : String → String) (s : ScraperState) (i : Initiative) :
    (add_result md5 s i).2 = true ↔ hash_key md5 i ∉ s.seen_hashes := by
  by_cases h : hash_key md5 i ∈ s.seen_hashes <;> simp [add_result, h]

lemma add_all_seen (md5 : String → String) (s : ScraperState)
    (l : List Initiative) (k : String) :
    k ∈ (add_all md5 s l).seen_hashes ↔
      k ∈ s.seen_hashes ∨ k ∈ l.map (hash_key md5) := by
  induction l generalizing s with
  | nil => simp [add_all]
  | cons i rest ih =>
    by_cases h : hash_key md5 i ∈ s.seen_hashes
    · simp only [add_all, add_result, h, if_pos, List.map_cons, List.mem_cons, ih]
      constructor
      · tauto
      · rintro (hc | hc | hc)
        · tauto
        · exact Or.inl (hc ▸ h)
        · tauto
    · simp only [add_all, add_result, h, if_neg, not_false_eq_true,
        List.map_cons, List.mem_cons, ih]
      tauto

lemma add_all_append (md5 : String → String) (s : ScraperState)
    (l1 l2 : List Initiative) :
    add_all md5 s (l1 ++ l2) = add_all md5 (add_all md5 s l1) l2 := by
  induction l1 generalizing s with
  | nil => rfl
  | cons i rest ih => simp [add_all, ih]

lemma admitFlags_append (md5 : String → String) (s : ScraperState)
    (l1 l2 : List Initiative) :
    admitFlags md5 s (l1 ++ l2) =
      admitFlags md5 s l1 ++ admitFlags md5 (add_all md5 s l1) l2 := by
  induction l1 generalizing s with
  | nil => rfl
  | cons i rest ih => simp [admitFlags, add_all, ih]

lemma admitFlags_length (md5 : String → String) (s : ScraperState)
    (l : List Initiative) : (admitFlags md5 s l).length = l.length := by
  induction l generalizing s with
  | nil => rfl
  | cons i rest ih => simp [admitFlags, ih]

lemma add_all_results (md5 : String → String) (s : ScraperState)
    (l : List Initiative) :
    (add_all md5 s l).results = s.results ++ acceptedOf md5 s l := by
  induction l generalizing s with
  | nil => simp [add_all, acceptedOf]
  | cons i rest ih =>
    by_cases h : hash_key md5 i ∈ s.seen_hashes <;>
      simp [add_all, acceptedOf, add_result, h, ih]

lemma add_all_duplicates (md5 : String → String) (s : ScraperState)
    (l : List Initiative) :
    (add_all md5 s l).duplicates = s.duplicates ++ rejectedOf md5 s l := by
  induction l generalizing s with
  | nil => simp [add_all, rejectedOf]
  | cons i rest ih =>
    by_cases h : hash_key md5 i ∈ s.seen_hashes <;>
      simp [add_all, rejectedOf, add_result, h, ih]

/-- Claim C1 — First-wins admission: `add_result` accepts a record iff its
canonical key is not yet in the seen-set; acceptance inserts the key and
appends the record to the accepted list, rejection appends a duplicate
diagnostic; over any admission sequence the accepted records and duplicate
diagnostics accumulate accordingly, a record whose key is fresh (not in the
seen-set and not produced by any earlier record) is accepted, and every
record appearing after a record with the same canonical key is rejected as
a duplicate. -/
theorem c1_first_wins_admission (md5 : String → String) :
    (∀ s i, ((add_result md5 s i).2 = true ↔ hash_key md5 i ∉ s.seen_hashes))
  ∧ (∀ s i, hash_key md5 i ∉ s.seen_hashes →
      (add_result md5 s i).1 =
        { s with seen_hashes := hash_key md5 i :: s.seen_hashes,
                 results := s.results ++ [i] })
  ∧ (∀ s i, hash_key md5 i ∈ s.seen_hashes →
      (add_result md5 s i).1 =
        { s with duplicates := s.duplicates ++ [⟨i.titre, i.url⟩] })
  ∧ (∀ s l, (add_all md5 s l).results = s.results ++ acceptedOf md5 s l ∧
      (add_all md5 s l).duplicates = s.duplicates ++ rejectedOf md5 s l)
  ∧ (∀ s l1 i l2, hash_key md5 i ∉ s.seen_hashes →
      hash_key md5 i ∉ l1.map (hash_key md5) →
      ∃ tl, admitFlags md5 s (l1 ++ i :: l2) =
        admitFlags md5 s l1 ++ true :: tl)
  ∧ (∀ s l1 i l2 j l3, hash_key md5 j = hash_key md5 i →
      ∃ pre tl, admitFlags md5 s (l1 ++ i :: l2 ++ j :: l3) =
        pre ++ false :: tl ∧ pre.length = l1.length + 1 + l2.length) := by
  refine ⟨add_result_snd md5, ?_, ?_, ?_, ?_, ?_⟩
  · intro s i h; simp [add_result, h]
  · intro s i h; simp [add_result, h]
  · intro s l; exact ⟨add_all_results md5 s l, add_all_duplicates md5 s l⟩
  · intro s l1 i l2 hs hl1
    refine ⟨admitFlags md5 (add_result md5 (add_all md5 s l1) i).1 l2, ?_⟩
    rw [admitFlags_append]
    have hseen : hash_key md5 i ∉ (add_all md5 s l1).seen_hashes := by
      rw [add_all_seen]; tauto
    have : (add_result md5 (add_all md5 s l1) i).2 = true :=
      (add_result_snd md5 _ i).mpr hseen
    simp [admitFlags, this]
  · intro s l1 i l2 j l3 hkey
    have hassoc : l1 ++ i :: l2 ++ j :: l3 = (l1 ++ i :: l2) ++ j :: l3 := by
      simp
    rw [hassoc, admitFlags_append]
    refine ⟨admitFlags md5 s (l1 ++ i :: l2),
      admitFlags md5 (add_result md5 (add_all md5 s (l1 ++ i :: l2)) j).1 l3, ?_, ?_⟩
    · have hseen : hash_key md5 j ∈ (add_all md5 s (l1 ++ i :: l2)).seen_hashes := by
        rw [add_all_seen]
        right
        rw [hkey]
        simp
      have hflag : (add_result md5 (add_all md5 s (l1 ++ i :: l2)) j).2 = false := by
        have := (add_result_snd md5 (add_all md5 s (l1 ++ i :: l2)) j)
        by_cases hb : (add_result md5 (add_all md5 s (l1 ++ i :: l2)) j).2
        · exact absurd hseen (this.mp hb)
        · simpa using hb
      simp [admitFlags, hflag]
    · rw [admitFlags_length]
      simp only [List.length_append, List.length_cons]
      omega

/-- Witness for C1: from the empty state, the first record is accepted and a
second record with the same canonical key is rejected as a duplicate. -/
theorem c1_first_wins_admission_witness :
    ((add_result (fun s => s) emptyState recA).2 = true)
  ∧ (∃ pre tl, admitFlags (fun s => s) emptyState [recA, recB] =
      pre ++ false :: tl ∧ pre.length = 1) := by
  constructor
  · exact ((c1_first_wins_admission (fun s => s)).1 emptyState recA).mpr (by decide)
  · have h := (c1_first_wins_admission (fun s => s)).2.2.2.2.2 emptyState
      [] recA [] recB [] (by decide)
    simpa using h

/-! ## Lemmas about the canonical key (C2) -/

lemma itemIdHere_some (l g : List Char) (h : itemIdHere l = some g) :
    ∃ c b, l = "/item/".data ++ c :: b ∧ isIdChar c = true ∧
      g = c :: takeIdRun b := by
  unfold itemIdHere at h
  split at h
  · rename_i c rest
    split at h
    · rename_i hc
      exact ⟨c, rest, rfl, hc, by injection h with h2; exact h2.symm⟩
    · simp at h
  · simp at h

lemma findItemId_append_item (c : Char) (b : List Char) (hc : isIdChar c = true) :
    findItemId ("/item/".data ++ c :: b) = some (c :: takeIdRun b) := by
  show findItemId ('/' :: 'i' :: 't' :: 'e' :: 'm' :: '/' :: c :: b) = _
  simp [findItemId, itemIdHere, hc]

lemma findItemId_cons (x : Char) (rest : List Char) :
    findItemId (x :: rest) =
      match itemIdHere (x :: rest) with
      | some g => some g
      | none => findItemId rest := rfl

lemma findItemId_isSome_append (a : List Char) (c : Char) (b : List Char)
    (hc : isIdChar c = true) :
    (findItemId (a ++ ("/item/".data ++ c :: b))).isSome = true := by
  induction a with
  | nil => rw [List.nil_append, findItemId_append_item c b hc]; rfl
  | cons x xs ih =>
    rw [List.cons_append, findItemId_cons]
    cases h : itemIdHere (x :: (xs ++ ("/item/".data ++ c :: b))) with
    | some g => rfl
    | none => exact ih

lemma findItemId_some_decomp :
    ∀ l g, findItemId l = some g →
      ∃ a c b, l = a ++ ("/item/".data ++ c :: b) ∧ isIdChar c = true := by
  intro l
  induction l with
  | nil => intro g h; simp [findItemId] at h
  | cons x rest ih =>
    intro g h
    simp only [findItemId] at h
    cases hh : itemIdHere (x :: rest) with
    | some g2 =>
      obtain ⟨c, b, heq, hc, _⟩ := itemIdHere_some _ _ hh
      exact ⟨[], c, b, by simpa using heq, hc⟩
    | none =>
      rw [hh] at h
      obtain ⟨a, c, b, heq, hc⟩ := ih g h
      exact ⟨x :: a, c, b, by simp [heq], hc⟩

lemma hasItemSeg_iff (url : String) :
    hasItemSeg url ↔ (findItemId url.data).isSome = true := by
  constructor
  · rintro ⟨a, c, b, heq, hc⟩
    rw [heq]
    exact findItemId_isSome_append a c b hc
  · intro h
    obtain ⟨g, hg⟩ := Option.isSome_iff_exists.mp h
    obtain ⟨a, c, b, heq, hc⟩ := findItemId_some_decomp _ _ hg
    exact ⟨a, c, b, heq, hc⟩

/-- Claim C2 — Canonical-key precedence: when the record's URL matches the
`/item/[A-Z0-9]+` pattern, `hash_key` is exactly the parsed identifier —
so it does not depend on any other field, and any two records parsing to the
same identifier share the key; when the URL has no such segment, the key is
the md5 fingerprint of the normalised (lowercased-trimmed title, period,
lowercased-trimmed place) triple. -/
theorem c2_canonical_key_precedence (md5 : String → String) :
    (∀ r g, findItemId r.url.data = some g → hash_key md5 r = String.mk g)
  ∧ (∀ r r2 g, findItemId r.url.data = some g →
      findItemId r2.url.data = some g → hash_key md5 r = hash_key md5 r2)
  ∧ (∀ r : Initiative, hasItemSeg r.url →
      ∃ g, findItemId r.url.data = some g ∧ hash_key md5 r = String.mk g)
  ∧ (∀ r : Initiative, ¬ hasItemSeg r.url →
      hash_key md5 r = md5 (normTriple r)) := by
  have h1 : ∀ r g, findItemId r.url.data = some g →
      hash_key md5 r = String.mk g := by
    intro r g h
    simp [hash_key, h]
  refine ⟨h1, ?_, ?_, ?_⟩
  · intro r r2 g hr hr2
    rw [h1 r g hr, h1 r2 g hr2]
  · intro r hseg
    obtain ⟨g, hg⟩ := Option.isSome_iff_exists.mp ((hasItemSeg_iff r.url).mp hseg)
    exact ⟨g, hg, h1 r g hg⟩
  · intro r hseg
    have hnone : findItemId r.url.data = none := by
      by_contra hne
      exact hseg ((hasItemSeg_iff r.url).mpr (Option.ne_none_iff_isSome.mp hne))
    simp [hash_key, hnone]

/-- Witness for C2: the key of `recA` (URL `/item/AB12`) is the parsed id
`AB12`; `recB` parses to the same id and shares the key despite drifted
fields; `recC` (no id) falls back to the fingerprint of its triple. -/
theorem c2_canonical_key_precedence_witness :
    hash_key (fun s => s) recA = "AB12"
  ∧ hash_key (fun s => s) recA = hash_key (fun s => s) recB
  ∧ hash_key (fun s => s) recC = normTriple recC := by
  refine ⟨?_, ?_, ?_⟩
  · have h := (c2_canonical_key_precedence (fun s => s)).1 recA "AB12".data (by decide)
    exact h.trans (by rfl)
  · exact (c2_canonical_key_precedence (fun s => s)).2.1 recA recB "AB12".data
      (by decide) (by decide)
  · exact (c2_canonical_key_precedence (fun s => s)).2.2.2 recC
      (by rw [hasItemSeg_iff]; decide)

/-! ## Lemmas about the retry loop (C3, C4) -/

lemma fetchGo_all429 (url : String) (env : Nat → AttemptOutcome) (retries : Nat) :
    ∀ fuel attempt, attempt + fuel = retries →
      (∀ i, attempt ≤ i → i < retries → ∃ b, env i = AttemptOutcome.resp 429 b) →
      fetchGo url env retries attempt fuel =
        ⟨none, [], (List.range' attempt fuel).map (fun i => 2 ^ i), fuel⟩ := by
  intro fuel
  induction fuel with
  | zero => intro attempt _ _; simp [fetchGo]
  | succ fuel ih =>
    intro attempt hat hall
    obtain ⟨b, hb⟩ := hall attempt le_rfl (by omega)
    simp only [fetchGo, hb]
    norm_num
    rw [ih (attempt + 1) (by omega) (fun i h1 h2 => hall i (by omega) h2)]
    simp [List.range'_succ]

lemma fetchGo_skips (url : String) (env : Nat → AttemptOutcome) (retries : Nat) :
    ∀ fuel attempt,
      (∀ i, attempt ≤ i → i < attempt + fuel →
        env i = AttemptOutcome.timeout ∨ ∃ b, env i = AttemptOutcome.resp 429 b) →
      (fetchGo url env retries attempt fuel).body = none ∧
      (fetchGo url env retries attempt fuel).newErrors = [] ∧
      (fetchGo url env retries attempt fuel).attemptsUsed = fuel := by
  intro fuel
  induction fuel with
  | zero => intro attempt _; exact ⟨rfl, rfl, rfl⟩
  | succ fuel ih =>
    intro attempt hall
    have hrest : ∀ i, attempt + 1 ≤ i → i < (attempt + 1) + fuel →
        env i = AttemptOutcome.timeout ∨ ∃ b, env i = AttemptOutcome.resp 429 b := by
      intro i h1 h2; exact hall i (by omega) (by omega)
    obtain ⟨ihb, ihe, iha⟩ := ih (attempt + 1) hrest
    rcases hall attempt le_rfl (by omega) with hb | ⟨b, hb⟩ <;>
      simp only [fetchGo, hb] <;> norm_num <;>
      exact ⟨ihb, ihe, by rw [iha]⟩

lemma fetchGo_errors_len (url : String) (env : Nat → AttemptOutcome) (retries : Nat) :
    ∀ fuel attempt, attempt + fuel = retries →
      (fetchGo url env retries attempt fuel).newErrors.length ≤ 1 := by
  intro fuel
  induction fuel with
  | zero => intro attempt _; simp [fetchGo]
  | succ fuel ih =>
    intro attempt hat
    have ihl := ih (attempt + 1) (by omega)
    cases henv : env attempt with
    | resp code body =>
      by_cases h200 : code = 200
      · simp [fetchGo, henv, h200]
      · by_cases h429 : code = 429
        · simp only [fetchGo, henv]
          simp [h200, h429, ihl]
        · simp [fetchGo, henv, h200, h429]
    | timeout =>
      simp only [fetchGo, henv]
      simpa using ihl
    | exn msg =>
      by_cases hlast : attempt = retries - 1
      · have hfuel : fuel = 0 := by omega
        subst hfuel
        simp only [fetchGo, henv, if_pos hlast]
        simp [fetchGo]
      · simp only [fetchGo, henv, hlast, if_false, List.nil_append]
        simpa using ihl

lemma fetchGo_success (url : String) (env : Nat → AttemptOutcome) (retries : Nat) :
    ∀ fuel attempt, attempt + fuel = retries → ∀ b,
      (fetchGo url env retries attempt fuel).body = some b →
      (fetchGo url env retries attempt fuel).newErrors = [] := by
  intro fuel
  induction fuel with
  | zero => intro attempt _ b h; simp [fetchGo] at h
  | succ fuel ih =>
    intro attempt hat b hbody
    have ihs := ih (attempt + 1) (by omega)
    cases henv : env attempt with
    | resp code body =>
      by_cases h200 : code = 200
      · simp [fetchGo, henv, h200]
      · by_cases h429 : code = 429
        · simp only [fetchGo, henv, h200, h429] at hbody ⊢
          simp only [if_false, if_true, if_neg h200, if_pos rfl] at hbody ⊢
          exact ihs b (by simpa using hbody)
        · simp [fetchGo, henv, h200, h429] at hbody
    | timeout =>
      simp only [fetchGo, henv] at hbody ⊢
      exact ihs b hbody
    | exn msg =>
      by_cases hlast : attempt = retries - 1
      · have hfuel : fuel = 0 := by omega
        subst hfuel
        simp [fetchGo, henv] at hbody
      · simp only [fetchGo, henv, hlast, if_false, List.nil_append] at hbody ⊢
        exact ihs b hbody

lemma fetchGo_skip_prefix (url : String) (env : Nat → AttemptOutcome) (retries : Nat) :
    ∀ n attempt fuel, n ≤ fuel →
      (∀ j, attempt ≤ j → j < attempt + n →
        env j = AttemptOutcome.timeout ∨ ∃ b, env j = AttemptOutcome.resp 429 b) →
      (fetchGo url env retries attempt fuel).body =
        (fetchGo url env retries (attempt + n) (fuel - n)).body ∧
      (fetchGo url env retries attempt fuel).newErrors =
        (fetchGo url env retries (attempt + n) (fuel - n)).newErrors := by
  intro n
  induction n with
  | zero => intro attempt fuel _ _; simp
  | succ n ih =>
    intro attempt fuel hn hall
    obtain ⟨fuel, rfl⟩ : ∃ f, fuel = f + 1 := ⟨fuel - 1, by omega⟩
    have hrest : ∀ j, attempt + 1 ≤ j → j < (attempt + 1) + n →
        env j = AttemptOutcome.timeout ∨ ∃ b, env j = AttemptOutcome.resp 429 b := by
      intro j h1 h2; exact hall j (by omega) (by omega)
    have ihr := ih (attempt + 1) fuel (by omega) hrest
    rw [show attempt + (n + 1) = attempt + 1 + n by omega,
        show fuel + 1 - (n + 1) = fuel - n by omega]
    rcases hall attempt le_rfl (by omega) with hb | ⟨b, hb⟩ <;>
      simp only [fetchGo, hb] <;> norm_num <;> exact ihr

/-- Counterexample to **C3** as stated: with every attempt answering
HTTP 429 and a budget of 3, `fetch` performs exactly 3 attempts with
backoff sleeps 1, 2, 4 and returns failure, but records **no** diagnostic —
`newErrors = []` — whereas the claim requires a NetworkFailure diagnostic
for that URL to have been recorded. -/
theorem c3_backoff_bound_counterexample :
    (fetch "https://u" (fun _ => AttemptOutcome.resp 429 "") 3).body = none
  ∧ (fetch "https://u" (fun _ => AttemptOutcome.resp 429 "") 3).attemptsUsed = 3
  ∧ (fetch "https://u" (fun _ => AttemptOutcome.resp 429 "") 3).sleeps = [1, 2, 4]
  ∧ (fetch "https://u" (fun _ => AttemptOutcome.resp 429 "") 3).newErrors = [] := by
  exact ⟨rfl, rfl, rfl, rfl⟩

/-- Claim C3 — (amended) Backoff bound: when every attempt answers HTTP 429,
`fetch` performs exactly the configured budget of attempts, sleeping
`2 ^ attempt` after each 429 response, then returns failure — and **no**
diagnostic is recorded for the URL (the errors list is left unchanged). -/
theorem c3_backoff_bound (url : String) (env : Nat → AttemptOutcome) (retries : Nat)
    (h : ∀ i, i < retries → ∃ b, env i = AttemptOutcome.resp 429 b) :
    fetch url env retries =
      ⟨none, [], (List.range retries).map (fun i => 2 ^ i), retries⟩ := by
  have hmain := fetchGo_all429 url env retries retries 0 (by omega)
    (fun i _ hi => h i hi)
  rw [fetch, hmain, List.range_eq_range']

/-- Witness for C3 (amended) at a concrete input: budget 3, always-429. -/
theorem c3_backoff_bound_witness :
    fetch "https://u" (fun _ => AttemptOutcome.resp 429 "x") 3 =
      ⟨none, [], [1, 2, 4], 3⟩ := by
  have h := c3_backoff_bound "https://u" (fun _ => AttemptOutcome.resp 429 "x") 3
    (fun i _ => ⟨"x", rfl⟩)
  simpa using h

/-- Counterexample to **C4** as stated: a fetch whose every attempt times
out exhausts the budget and ultimately fails, yet **zero** NetworkError
entries are appended — the claim says exactly one is appended for every
ultimately-failing URL, "never zero". -/
theorem c4_fetch_diagnostics_counterexample :
    (fetch "https://u" (fun _ => AttemptOutcome.timeout) 3).body = none
  ∧ (fetch "https://u" (fun _ => AttemptOutcome.timeout) 3).newErrors = [] := by
  exact ⟨rfl, rfl⟩

/-- Claim C4 — (amended) Diagnostic bookkeeping of `fetch`: at most one error
entry is ever appended per call (never one per retry attempt); a successful
fetch appends none; exhausting the budget on timeouts/429s fails with
**zero** entries; a non-200 non-429 status reached after timeouts/429s
appends exactly one status entry; a transport error on the last attempt
(after timeouts/429s) appends exactly one error entry. -/
theorem c4_fetch_diagnostics (url : String) (env : Nat → AttemptOutcome)
    (retries : Nat) :
    ((fetch url env retries).newErrors.length ≤ 1)
  ∧ (∀ b, (fetch url env retries).body = some b →
      (fetch url env retries).newErrors = [])
  ∧ ((∀ i, i < retries →
        env i = AttemptOutcome.timeout ∨ ∃ b, env i = AttemptOutcome.resp 429 b) →
      (fetch url env retries).body = none ∧ (fetch url env retries).newErrors = [])
  ∧ (∀ k c bd, k < retries →
      (∀ j, j < k →
        env j = AttemptOutcome.timeout ∨ ∃ b, env j = AttemptOutcome.resp 429 b) →
      env k = AttemptOutcome.resp c bd → c ≠ 200 → c ≠ 429 →
      (fetch url env retries).body = none ∧
        (fetch url env retries).newErrors = [ErrorEntry.status url c])
  ∧ (∀ m, 0 < retries →
      (∀ j, j < retries - 1 →
        env j = AttemptOutcome.timeout ∨ ∃ b, env j = AttemptOutcome.resp 429 b) →
      env (retries - 1) = AttemptOutcome.exn m →
      (fetch url env retries).body = none ∧
        (fetch url env retries).newErrors = [ErrorEntry.err url m]) := by
  refine ⟨fetchGo_errors_len url env retries retries 0 (by omega),
    fun b h => fetchGo_success url env retries retries 0 (by omega) b h, ?_, ?_, ?_⟩
  · intro hall
    obtain ⟨h1, h2, _⟩ := fetchGo_skips url env retries retries 0
      (fun i _ hi => hall i (by omega))
    exact ⟨h1, h2⟩
  · intro k c bd hk hpre henv h200 h429
    obtain ⟨hb, he⟩ := fetchGo_skip_prefix url env retries k 0 retries (by omega)
      (fun j _ hj => hpre j (by omega))
    rw [fetch, hb, he]
    obtain ⟨f, hf⟩ : ∃ f, retries - k = f + 1 := ⟨retries - k - 1, by omega⟩
    rw [hf]
    simp only [Nat.zero_add, fetchGo, henv, h200, h429, if_false]
    simp
  · intro m hpos hpre henv
    obtain ⟨hb, he⟩ := fetchGo_skip_prefix url env retries (retries - 1) 0 retries
      (by omega) (fun j _ hj => hpre j (by omega))
    rw [fetch, hb, he]
    rw [show retries - (retries - 1) = 1 by omega]
    simp only [Nat.zero_add, fetchGo, henv, if_pos rfl]
    simp [fetchGo]

/-- Witness for C4 (amended): a 500 status appends exactly one status entry;
a 200 appends none. -/
theorem c4_fetch_diagnostics_witness :
    ((fetch "https://u" (fun _ => AttemptOutcome.resp 500 "e") 3).newErrors =
      [ErrorEntry.status "https://u" 500])
  ∧ (fetch "https://u" (fun _ => AttemptOutcome.resp 200 "ok") 3).newErrors = [] := by
  constructor
  · exact ((c4_fetch_diagnostics "https://u" (fun _ => AttemptOutcome.resp 500 "e")
      3).2.2.2.1 0 500 "e" (by omega) (fun j hj => absurd hj (by omega)) rfl
      (by omega) (by omega)).2
  · exact (c4_fetch_diagnostics "https://u" (fun _ => AttemptOutcome.resp 200 "ok")
      3).2.1 "ok" rfl

/-! ## Pagination (C5) -/

/-- Claim C5 — Pagination completeness: for every positive total, `scrape_all`
plans exactly `ceil(total / ROWS_PER_PAGE)` page URLs (characterised
arithmetically), the `i`-th carrying offset `i * ROWS_PER_PAGE` and
`ROWS_PER_PAGE` rows; in particular total 250 gives exactly the three
descriptors with offsets 0, 100, 200 and total 1 gives one descriptor with
offset 0 and rows 100. -/
theorem c5_pagination_completeness (total : Nat) (hpos : 0 < total) :
    (scrapeUrls total).length = pagesFor total
  ∧ total ≤ pagesFor total * ROWS_PER_PAGE
  ∧ (pagesFor total - 1) * ROWS_PER_PAGE < total
  ∧ (∀ i (h : i < (scrapeUrls total).length),
      (scrapeUrls total).get ⟨i, h⟩ = pageUrl (i * ROWS_PER_PAGE) ROWS_PER_PAGE)
  ∧ scrapeUrls 250 = [pageUrl 0 100, pageUrl 100 100, pageUrl 200 100]
  ∧ scrapeUrls 1 = [pageUrl 0 100] := by
  refine ⟨by simp [scrapeUrls], ?_, ?_, ?_, rfl, rfl⟩
  · simp only [pagesFor, ROWS_PER_PAGE]
    omega
  · simp only [pagesFor, ROWS_PER_PAGE]
    omega
  · intro i h
    simp [scrapeUrls, List.get_eq_getElem]

/-- Witness for C5 at the concrete totals 250 and 1. -/
theorem c5_pagination_completeness_witness :
    (scrapeUrls 250).length = 3
  ∧ scrapeUrls 250 = [pageUrl 0 100, pageUrl 100 100, pageUrl 200 100]
  ∧ scrapeUrls 1 = [pageUrl 0 100] := by
  have h := c5_pagination_completeness 250 (by omega)
  exact ⟨h.1.trans (by rfl), h.2.2.2.2.1,
    (c5_pagination_completeness 1 (by omega)).2.2.2.2.2⟩

/-! ## Parse failures and extraction (C9, C10) -/

lemma parse_list_item_of_anchor (env : CrawlEnv) (frag : Fragment) (base : String)
    (a : Anchor) (ha : a ∈ frag.anchors)
    (hit : containsSub a.href "/item/" = true) :
    (parse_list_item env frag base).isSome = true := by
  have hsome : (frag.anchors.find? (fun x => containsSub x.href "/item/")).isSome := by
    rw [List.find?_isSome]
    exact ⟨a, ha, hit⟩
  obtain ⟨link, hl⟩ := Option.isSome_iff_exists.mp hsome
  simp [parse_list_item, hl]

lemma processAnchors_spec (env : CrawlEnv) (frag : Fragment) (u : String) :
    ∀ l, l ⊆ frag.anchors →
      (processAnchors env frag u l).2 = [] ∧
      (processAnchors env frag u l).1.length =
        (l.filter (fun a =>
          containsSub a.href "/item/" && (normSpace a.text != ""))).length := by
  intro l
  induction l with
  | nil => intro _; exact ⟨rfl, rfl⟩
  | cons a rest ih =>
    intro hsub
    have ha : a ∈ frag.anchors := hsub (List.mem_cons_self a rest)
    have hrest := ih (fun x hx => hsub (List.mem_cons_of_mem a hx))
    by_cases hit : containsSub a.href "/item/" = true
    · by_cases htext : normSpace a.text = ""
      · simp [processAnchors, hit, htext, hrest.1, hrest.2, List.filter]
      · obtain ⟨ini, hini⟩ := Option.isSome_iff_exists.mp
          (parse_list_item_of_anchor env frag BASE_URL a ha hit)
        have hbt : (normSpace a.text != "") = true := bne_iff_ne.mpr htext
        simp [processAnchors, hit, htext, hbt, hini, hrest.1, hrest.2, List.filter]
    · simp [processAnchors, hit, hrest.1, hrest.2, List.filter]

lemma processAnchors_no_item (env : CrawlEnv) (frag : Fragment) (u : String) :
    ∀ l, (∀ a ∈ l, containsSub a.href "/item/" = false) →
      processAnchors env frag u l = ([], []) := by
  intro l
  induction l with
  | nil => intro _; rfl
  | cons a rest ih =>
    intro hall
    have ha := hall a (List.mem_cons_self a rest)
    have hrest := ih (fun x hx => hall x (List.mem_cons_of_mem a hx))
    simp [processAnchors, ha, hrest]

/-- Counterexample to **C9** as stated: a successfully fetched page whose
sole fragment yields no link contributes no record and **no** ParseFailure
diagnostic (the failure list stays empty), whereas the claim requires
exactly one ParseFailure to be appended for such a fragment. -/
theorem c9_parse_failure_diagnostics_counterexample :
    parse_list_page cenv [fragNoLink] "p" = ([], []) := rfl

/-- Claim C9 — (amended) Parse-failure diagnostics: `parse_list_page` never
appends a ParseFailure — a fragment yielding no `/item/` link, or a link
with empty text, is skipped silently with no record and no diagnostic, and
every enumerated `/item/` link with non-empty text yields a record (its
own fragment always contains an item link, so extraction cannot miss);
hence the record count equals the count of qualifying links and the
failure list is empty, and page processing always completes. -/
theorem c9_parse_failure_diagnostics :
    (∀ (env : CrawlEnv) page u, (parse_list_page env page u).2 = [])
  ∧ (∀ (env : CrawlEnv) page u, (parse_list_page env page u).1.length =
      (page.map (fun frag => (frag.anchors.filter (fun a =>
        containsSub a.href "/item/" && (normSpace a.text != ""))).length)).sum)
  ∧ (∀ (env : CrawlEnv) frag u,
      (∀ a ∈ frag.anchors, containsSub a.href "/item/" = false) →
      processAnchors env frag u frag.anchors = ([], [])) := by
  refine ⟨?_, ?_, fun env frag u h => processAnchors_no_item env frag u frag.anchors h⟩
  · intro env page u
    induction page with
    | nil => rfl
    | cons frag rest ih =>
      simp [parse_list_page, ih,
        (processAnchors_spec env frag u frag.anchors (fun x hx => hx)).1]
  · intro env page u
    induction page with
    | nil => rfl
    | cons frag rest ih =>
      simp [parse_list_page, ih,
        (processAnchors_spec env frag u frag.anchors (fun x hx => hx)).2]

/-- Witness for C9 (amended): a linkless fragment is skipped with no
record and no diagnostic. -/
theorem c9_parse_failure_diagnostics_witness :
    processAnchors cenv fragNoLink "p" fragNoLink.anchors = ([], []) :=
  c9_parse_failure_diagnostics.2.2 cenv fragNoLink "p"
    (fun a ha => absurd ha (List.not_mem_nil a))

lemma parse_list_item_titre (env : CrawlEnv) (frag : Fragment) (base : String)
    (ini : Initiative) (h : parse_list_item env frag base = some ini) :
    ∃ a, frag.anchors.find? (fun x => containsSub x.href "/item/") = some a ∧
      ini.titre = normSpace a.text := by
  cases hf : frag.anchors.find? (fun x => containsSub x.href "/item/") with
  | none => simp [parse_list_item, hf] at h
  | some a =>
    refine ⟨a, rfl, ?_⟩
    simp only [parse_list_item, hf] at h
    obtain rfl := Option.some.inj h
    rfl

lemma processAnchors_mem (env : CrawlEnv) (frag : Fragment) (u : String) :
    ∀ l (ini : Initiative), ini ∈ (processAnchors env frag u l).1 →
      parse_list_item env frag BASE_URL = some ini := by
  intro l
  induction l with
  | nil => intro ini h; simp [processAnchors] at h
  | cons a rest ih =>
    intro ini h
    by_cases hit : containsSub a.href "/item/" = true
    · by_cases htext : normSpace a.text = ""
      · simp only [processAnchors, hit, htext, if_true, if_pos rfl] at h
        exact ih ini (by simpa [hit, htext] using h)
      · cases hp : parse_list_item env frag BASE_URL with
        | none =>
          simp only [processAnchors, hit, htext, hp] at h
          exact absurd (ih ini (by simpa [hit, htext, hp] using h)) (by simp [hp])
        | some j =>
          simp only [processAnchors] at h
          rw [if_pos hit, if_neg htext, hp] at h
          rcases List.mem_cons.mp h with rfl | hm
          · rfl
          · rw [← hp]
            exact ih ini hm
    · simp only [processAnchors] at h
      rw [if_neg hit] at h
      exact ih ini h

lemma parse_list_page_mem (env : CrawlEnv) (u : String) :
    ∀ page (ini : Initiative), ini ∈ (parse_list_page env page u).1 →
      ∃ frag ∈ page, parse_list_item env frag BASE_URL = some ini := by
  intro page
  induction page with
  | nil => intro ini h; simp [parse_list_page] at h
  | cons frag rest ih =>
    intro ini h
    simp only [parse_list_page, List.mem_append] at h
    rcases h with h | h
    · exact ⟨frag, List.mem_cons_self _ _, processAnchors_mem env frag u frag.anchors ini h⟩
    · obtain ⟨f, hf, hp⟩ := ih ini h
      exact ⟨f, List.mem_cons_of_mem _ hf, hp⟩

lemma add_all_mem_results (md5 : String → String) :
    ∀ (l : List Initiative) (s : ScraperState) (ini : Initiative),
      ini ∈ (add_all md5 s l).results → ini ∈ s.results ∨ ini ∈ l := by
  intro l
  induction l with
  | nil => intro s ini h; exact Or.inl h
  | cons i rest ih =>
    intro s ini h
    rcases ih _ ini h with hmem | hmem
    · by_cases hk : hash_key md5 i ∈ s.seen_hashes
      · simp only [add_result, hk, if_pos] at hmem
        exact Or.inl hmem
      · simp only [add_result, hk, if_neg, not_false_eq_true] at hmem
        rcases List.mem_append.mp hmem with hm | hm
        · exact Or.inl hm
        · exact Or.inr (List.mem_cons.mpr (Or.inl (List.mem_singleton.mp hm)))
    · exact Or.inr (List.mem_cons_of_mem i hmem)

/-! ## Enrichment lemmas (C7, C8, C10) -/

lemma enrichOne_frame (env : CrawlEnv) (r : Initiative) :
    (enrichOne env r).titre = r.titre ∧ (enrichOne env r).periode = r.periode
  ∧ (enrichOne env r).institution = r.institution
  ∧ (enrichOne env r).url = r.url := by
  unfold enrichOne
  cases h : (fetch_detail_location env r.url).1 with
  | none => exact ⟨rfl, rfl, rfl, rfl⟩
  | some l =>
    by_cases hl : l ≠ "" <;> simp [hl]

lemma enrich_titres (env : CrawlEnv) (rs : List Initiative) :
    (enrich_missing_locations env rs).1.map Initiative.titre =
      rs.map Initiative.titre := by
  induction rs with
  | nil => rfl
  | cons r rest ih =>
    simp only [enrich_missing_locations, List.map_cons] at ih ⊢
    by_cases h : r.lieu = "Non spécifié" <;>
      simp [h, (enrichOne_frame env r).1, ih]

/-- Counterexample to **C10** as stated: a fragment whose first `/item/`
link has empty text while a later one is titled produces a record with an
**empty** title (the scanned link passes the non-empty-text check, but
`parse_list_item` re-finds the fragment's *first* item link and takes its
text), and that record is accepted into the results — the claim says every
record ever created and accepted has a non-empty title. -/
theorem c10_title_invariant_counterexample :
    ((parse_list_page cenv [fragEmptyTitle] "p").1.map Initiative.titre = [""])
  ∧ ((add_all cenv.md5 emptyState
      (parse_list_page cenv [fragEmptyTitle] "p").1).results.map Initiative.titre
      = [""]) := by
  exact ⟨rfl, rfl⟩

/-- Claim C10 — (amended) Title invariant: every record built by
`parse_list_item` takes its title from the *first* `/item/` link of its
fragment; when every fragment's first item link has non-empty normalised
text (in particular when each fragment holds a single item link, the
regular page shape), every extracted record has a non-empty title; and no
later operation changes titles — admission only moves records, and
enrichment preserves every title. -/
theorem c10_title_invariant :
    (∀ (env : CrawlEnv) frag base ini, parse_list_item env frag base = some ini →
      ∃ a, frag.anchors.find? (fun x => containsSub x.href "/item/") = some a ∧
        ini.titre = normSpace a.text)
  ∧ (∀ (env : CrawlEnv) page u ini, ini ∈ (parse_list_page env page u).1 →
      (∀ frag ∈ page, ∀ a,
        frag.anchors.find? (fun x => containsSub x.href "/item/") = some a →
        normSpace a.text ≠ "") →
      ini.titre ≠ "")
  ∧ (∀ (md5f : String → String) (s : ScraperState) l ini,
      ini ∈ (add_all md5f s l).results → ini ∈ s.results ∨ ini ∈ l)
  ∧ (∀ (env : CrawlEnv) rs,
      (enrich_missing_locations env rs).1.map Initiative.titre =
        rs.map Initiative.titre) := by
  refine ⟨fun env frag base ini h => parse_list_item_titre env frag base ini h,
    ?_, fun md5f s l ini h => add_all_mem_results md5f l s ini h, enrich_titres⟩
  intro env page u ini hmem hpage
  obtain ⟨frag, hfrag, hitem⟩ := parse_list_page_mem env u page ini hmem
  obtain ⟨a, hfind, htitre⟩ := parse_list_item_titre env frag BASE_URL ini hitem
  rw [htitre]
  exact hpage frag hfrag a hfind

/-- Witness for C10 (amended): on a page whose single fragment has one
titled item link, the extracted record's title is non-empty. -/
theorem c10_title_invariant_witness :
    (⟨"Ein Titel", "Non spécifiée", "Non spécifié",
      "https://www.archivportal-d.de/item/CCC", ""⟩ : Initiative).titre ≠ "" := by
  refine c10_title_invariant.2.1 cenv [fragGood] "p" _ (by decide) ?_
  intro frag hf a hfind
  obtain rfl := List.mem_singleton.mp hf
  have hval : fragGood.anchors.find? (fun x => containsSub x.href "/item/") =
      some ⟨"/item/CCC", "Ein Titel"⟩ := by decide
  rw [hval] at hfind
  obtain rfl := Option.some.inj hfind
  decide

/-- Claim C7 — Enrichment fallback order: a detail page whose organization-link
scan succeeds returns that place without fetching the secondary (OAI)
endpoint; the OAI endpoint is fetched only when the detail page was
fetched, its organization scan found nothing, and the URL parses to an
item id (and then the result is exactly the OAI lookup on that id); and a
record for which the whole fallback yields nothing is left untouched —
kept in the results with its unspecified marker, no further stages
existing. -/
theorem c7_enrichment_fallback_order :
    (∀ (env : CrawlEnv) url anchors lieu, env.detail url = some anchors →
      scanOrg env anchors = some lieu →
      fetch_detail_location env url = (some lieu, false))
  ∧ (∀ (env : CrawlEnv) url, (fetch_detail_location env url).2 = true →
      ∃ anchors, env.detail url = some anchors ∧ scanOrg env anchors = none ∧
        ∃ g, findItemId url.data = some g ∧
          (fetch_detail_location env url).1 = fetch_oai_location env (String.mk g))
  ∧ (∀ (env : CrawlEnv) (r : Initiative),
      (fetch_detail_location env r.url).1 = none → enrichOne env r = r)
  ∧ (∀ (env : CrawlEnv) (rs : List Initiative) r, r ∈ rs →
      (fetch_detail_location env r.url).1 = none →
      r ∈ (enrich_missing_locations env rs).1) := by
  have h3 : ∀ (env : CrawlEnv) (r : Initiative),
      (fetch_detail_location env r.url).1 = none → enrichOne env r = r := by
    intro env r h
    simp [enrichOne, h]
  refine ⟨?_, ?_, h3, ?_⟩
  · intro env url anchors lieu hdet hscan
    simp [fetch_detail_location, hdet, hscan]
  · intro env url h2
    cases hdet : env.detail url with
    | none =>
      have hv : fetch_detail_location env url = (none, false) := by
        simp [fetch_detail_location, hdet]
      rw [hv] at h2
      simp at h2
    | some anchors =>
      cases hscan : scanOrg env anchors with
      | some lieu =>
        have hv : fetch_detail_location env url = (some lieu, false) := by
          simp [fetch_detail_location, hdet, hscan]
        rw [hv] at h2
        simp at h2
      | none =>
        cases hid : findItemId url.data with
        | none =>
          have hv : fetch_detail_location env url = (none, false) := by
            simp [fetch_detail_location, hdet, hscan, hid]
          rw [hv] at h2
          simp at h2
        | some g =>
          have hfd : fetch_detail_location env url =
              (fetch_oai_location env (String.mk g), true) := by
            simp [fetch_detail_location, hdet, hscan, hid]
          exact ⟨anchors, rfl, hscan, g, rfl, by rw [hfd]⟩
  · intro env rs r hmem hnone
    have hfr : (if r.lieu = "Non spécifié" then enrichOne env r else r) = r := by
      by_cases h : r.lieu = "Non spécifié" <;> simp [h, h3 env r hnone]
    have hm := List.mem_map_of_mem
      (fun x => if x.lieu = "Non spécifié" then enrichOne env x else x) hmem
    have hm2 : (if r.lieu = "Non spécifié" then enrichOne env r else r) ∈
        rs.map (fun x => if x.lieu = "Non spécifié" then enrichOne env x else x) := hm
    rw [hfr] at hm2
    simpa [enrich_missing_locations] using hm2

/-- Witness for C7: a successful organization scan returns the place with
no OAI fetch; a record whose whole fallback fails is left unchanged. -/
theorem c7_enrichment_fallback_order_witness :
    fetch_detail_location cenvOrg "https://d" = (some "Berlin", false)
  ∧ enrichOne cenv recD = recD := by
  constructor
  · exact c7_enrichment_fallback_order.1 cenvOrg "https://d"
      [⟨"/organization/x", "Berlin"⟩] "Berlin" rfl (by decide)
  · exact c7_enrichment_fallback_order.2.2.1 cenv recD (by decide)

/-- Claim C8 — Enrichment frame: enrichment neither adds nor removes records;
for every position, title, period, institution and URL are unchanged; the
place can change only if it carried the unspecified marker beforehand; and
a record whose place was already resolved is left entirely untouched. -/
theorem c8_enrichment_frame (env : CrawlEnv) (rs : List Initiative) :
    ((enrich_missing_locations env rs).1.length = rs.length)
  ∧ (∀ i (h : i < rs.length) (h2 : i < (enrich_missing_locations env rs).1.length),
      ((enrich_missing_locations env rs).1.get ⟨i, h2⟩).titre = (rs.get ⟨i, h⟩).titre
    ∧ ((enrich_missing_locations env rs).1.get ⟨i, h2⟩).periode = (rs.get ⟨i, h⟩).periode
    ∧ ((enrich_missing_locations env rs).1.get ⟨i, h2⟩).institution =
        (rs.get ⟨i, h⟩).institution
    ∧ ((enrich_missing_locations env rs).1.get ⟨i, h2⟩).url = (rs.get ⟨i, h⟩).url
    ∧ (((enrich_missing_locations env rs).1.get ⟨i, h2⟩).lieu ≠ (rs.get ⟨i, h⟩).lieu →
        (rs.get ⟨i, h⟩).lieu = "Non spécifié")
    ∧ ((rs.get ⟨i, h⟩).lieu ≠ "Non spécifié" →
        (enrich_missing_locations env rs).1.get ⟨i, h2⟩ = rs.get ⟨i, h⟩)) := by
  constructor
  · simp [enrich_missing_locations]
  · intro i h h2
    have hgm : (enrich_missing_locations env rs).1.get ⟨i, h2⟩ =
        if (rs.get ⟨i, h⟩).lieu = "Non spécifié" then enrichOne env (rs.get ⟨i, h⟩)
        else rs.get ⟨i, h⟩ := by
      simp [enrich_missing_locations, List.get_eq_getElem]
    by_cases hl : (rs.get ⟨i, h⟩).lieu = "Non spécifié"
    · obtain ⟨ht, hp, hi, hu⟩ := enrichOne_frame env (rs.get ⟨i, h⟩)
      rw [hgm, if_pos hl]
      exact ⟨ht, hp, hi, hu, fun _ => hl, fun hc => absurd hl hc⟩
    · rw [hgm, if_neg hl]
      exact ⟨rfl, rfl, rfl, rfl, fun hc => absurd rfl hc, fun _ => rfl⟩

/-- Witness for C8: a one-record list whose place is already resolved is
returned untouched by enrichment. -/
theorem c8_enrichment_frame_witness :
    (enrich_missing_locations cenv [recA]).1.length = 1
  ∧ ∃ h2 : 0 < (enrich_missing_locations cenv [recA]).1.length,
      (enrich_missing_locations cenv [recA]).1.get ⟨0, h2⟩ = recA := by
  have h := c8_enrichment_frame cenv [recA]
  have hlen : (enrich_missing_locations cenv [recA]).1.length = 1 :=
    h.1.trans (by rfl)
  have h2 : 0 < (enrich_missing_locations cenv [recA]).1.length := by
    rw [hlen]
    omega
  exact ⟨hlen, h2, (h.2 0 (by decide) h2).2.2.2.2.2 (by decide)⟩

/-! ## Planning failure and the whole run (C6) -/

/-- Claim C6 — Planning failure ends the run with an empty result: when the
total-count fetch fails, or the count pattern does not match the response
text, `get_total_results` returns 0; whenever it returns 0, `scrape_all`
returns an empty record list having fetched no list page and run no
enrichment; and whenever it returns a non-zero count (the only other
non-crashing case), the run fetches every planned list page and runs the
enrichment phase, whatever the per-page failures. -/
theorem c6_planning_failure_empty_run :
    (∀ env : CrawlEnv, env.totalText = none → get_total_results env = PyResult.ok 0)
  ∧ (∀ (env : CrawlEnv) t, env.totalText = some t → findTotal t.data = none →
      get_total_results env = PyResult.ok 0)
  ∧ (∀ env : CrawlEnv, get_total_results env = PyResult.ok 0 →
      scrape_all env = PyResult.ok ⟨emptyState, [], false, 0⟩)
  ∧ (∀ (env : CrawlEnv) n, get_total_results env = PyResult.ok n → n ≠ 0 →
      ∃ o, scrape_all env = PyResult.ok o ∧
        o.listUrlsFetched = scrapeUrls n ∧ o.enrichRan = true) := by
  refine ⟨?_, ?_, ?_, ?_⟩
  · intro env h
    simp [get_total_results, h]
  · intro env t h1 h2
    simp [get_total_results, h1, h2]
  · intro env h
    rw [scrape_all, h]
    simp
  · intro env n h hn
    have hmain : scrape_all env = PyResult.ok
        ⟨{ (scrapeUrls n).foldl (processListPage env) emptyState with
            results := (enrich_missing_locations env
              ((scrapeUrls n).foldl (processListPage env) emptyState).results).1 },
          scrapeUrls n, true,
          (enrich_missing_locations env
            ((scrapeUrls n).foldl (processListPage env) emptyState).results).2⟩ := by
      rw [scrape_all, h]
      simp [hn]
    exact ⟨_, hmain, rfl, rfl⟩

/-- Witness for C6: a failed total-count fetch yields the empty outcome
with no pages fetched and no enrichment; a total of 1 plans and fetches
exactly the one page URL and runs enrichment. -/
theorem c6_planning_failure_empty_run_witness :
    scrape_all cenv = PyResult.ok ⟨emptyState, [], false, 0⟩
  ∧ ∃ o, scrape_all cenvTotal1 = PyResult.ok o ∧
      o.listUrlsFetched = scrapeUrls 1 ∧ o.enrichRan = true := by
  constructor
  · exact c6_planning_failure_empty_run.2.2.1 cenv rfl
  · exact c6_planning_failure_empty_run.2.2.2 cenvTotal1 1 (by decide) (by decide)

end Scraper
